import Mathlib

/-!
Shallow embedding of the ray-tracer core (Rasle/ray_tracing) in Lean 4.

Floating-point (`f64`) arithmetic is modelled by the real numbers; the
`t_max` bound of intersection tests, which the program instantiates with
`f64::INFINITY`, is modelled by `WithTop ℝ`.  The process-global random
number generator is modelled by passing the drawn random values explicitly
(structure `Rand`).  Definitions follow `src/vec3.rs`, `src/sphere.rs`,
`src/material.rs` and `src/main.rs`; the `Ray` type lives in the missing
`src/ray.rs` and is modelled from the spec.
-/

open Classical

/-- Three-component real vector, from `vec3.rs` (`pub struct Vec3`). -/
structure Vec3 where
  x : ℝ
  y : ℝ
  z : ℝ

namespace Vec3

/-- `Vec3::zeros`. -/
def zeros : Vec3 := ⟨0, 0, 0⟩

/-- `Vec3::ones`. -/
def ones : Vec3 := ⟨1, 1, 1⟩

/-- Componentwise addition, from `impl ops::Add<Vec3> for Vec3`. -/
instance : Add Vec3 := ⟨fun a b => ⟨a.x + b.x, a.y + b.y, a.z + b.z⟩⟩

/-- Componentwise subtraction, from `impl ops::Sub<Vec3> for Vec3`. -/
instance : Sub Vec3 := ⟨fun a b => ⟨a.x - b.x, a.y - b.y, a.z - b.z⟩⟩

/-- Componentwise multiplication, from `impl ops::Mul<Vec3> for Vec3`. -/
instance : Mul Vec3 := ⟨fun a b => ⟨a.x * b.x, a.y * b.y, a.z * b.z⟩⟩

/-- Negation, from `impl ops::Neg for Vec3`. -/
instance : Neg Vec3 := ⟨fun a => ⟨-a.x, -a.y, -a.z⟩⟩

/-- Scalar times vector, from `impl ops::Mul<Vec3> for f64`. -/
instance : HMul ℝ Vec3 Vec3 := ⟨fun t v => ⟨t * v.x, t * v.y, t * v.z⟩⟩

/-- Vector divided by scalar, from `impl ops::Div<f64> for Vec3`:
`(1.0 / t) * self`. -/
noncomputable instance : HDiv Vec3 ℝ Vec3 := ⟨fun v t => (1 / t : ℝ) * v⟩

@[simp] theorem add_x (a b : Vec3) : (a + b).x = a.x + b.x := rfl
@[simp] theorem add_y (a b : Vec3) : (a + b).y = a.y + b.y := rfl
@[simp] theorem add_z (a b : Vec3) : (a + b).z = a.z + b.z := rfl
@[simp] theorem sub_x (a b : Vec3) : (a - b).x = a.x - b.x := rfl
@[simp] theorem sub_y (a b : Vec3) : (a - b).y = a.y - b.y := rfl
@[simp] theorem sub_z (a b : Vec3) : (a - b).z = a.z - b.z := rfl
@[simp] theorem mul_x (a b : Vec3) : (a * b).x = a.x * b.x := rfl
@[simp] theorem mul_y (a b : Vec3) : (a * b).y = a.y * b.y := rfl
@[simp] theorem mul_z (a b : Vec3) : (a * b).z = a.z * b.z := rfl
@[simp] theorem neg_x (a : Vec3) : (-a).x = -a.x := rfl
@[simp] theorem neg_y (a : Vec3) : (-a).y = -a.y := rfl
@[simp] theorem neg_z (a : Vec3) : (-a).z = -a.z := rfl
@[simp] theorem smul_x (t : ℝ) (v : Vec3) : (t * v).x = t * v.x := rfl
@[simp] theorem smul_y (t : ℝ) (v : Vec3) : (t * v).y = t * v.y := rfl
@[simp] theorem smul_z (t : ℝ) (v : Vec3) : (t * v).z = t * v.z := rfl
@[simp] theorem divs_x (v : Vec3) (t : ℝ) : (v / t).x = (1 / t) * v.x := rfl
@[simp] theorem divs_y (v : Vec3) (t : ℝ) : (v / t).y = (1 / t) * v.y := rfl
@[simp] theorem divs_z (v : Vec3) (t : ℝ) : (v / t).z = (1 / t) * v.z := rfl

theorem ext_iff {a b : Vec3} : a = b ↔ a.x = b.x ∧ a.y = b.y ∧ a.z = b.z := by
  constructor
  · rintro rfl; exact ⟨rfl, rfl, rfl⟩
  · rintro ⟨hx, hy, hz⟩; cases a; cases b; simp_all

/-- `Vec3::length_squared`. -/
def length_squared (v : Vec3) : ℝ := v.x * v.x + v.y * v.y + v.z * v.z

/-- `Vec3::length`. -/
noncomputable def length (v : Vec3) : ℝ := Real.sqrt v.length_squared

/-- `Vec3::dot`. -/
def dot (u v : Vec3) : ℝ := u.x * v.x + u.y * v.y + u.z * v.z

/-- `Vec3::unit_vector`: `v / v.length()`. -/
noncomputable def unit_vector (v : Vec3) : Vec3 := v / v.length

/-- `Vec3::near_zero`: all components below `1e-8` in absolute value. -/
def near_zero (v : Vec3) : Prop :=
  |v.x| < 1e-8 ∧ |v.y| < 1e-8 ∧ |v.z| < 1e-8

/-- `Vec3::reflect`: `v - 2.0 * Vec3::dot(v, n) * n`. -/
noncomputable def reflect (v n : Vec3) : Vec3 := v - (2 * Vec3.dot v n) * n

/-- `Vec3::refract`. -/
noncomputable def refract (uv n : Vec3) (etai_over_etat : ℝ) : Vec3 :=
  let cos_theta := min (Vec3.dot (-uv) n) 1
  let r_out_perp := etai_over_etat * (uv + cos_theta * n)
  let r_out_parallel := (-(Real.sqrt |1 - r_out_perp.length_squared|)) * n
  r_out_perp + r_out_parallel

theorem length_squared_nonneg (v : Vec3) : 0 ≤ v.length_squared := by
  unfold length_squared
  nlinarith [sq_nonneg v.x, sq_nonneg v.y, sq_nonneg v.z]

end Vec3

/-- Ray type.  Modelled from the spec: `src/ray.rs` is referenced by
`main.rs` (`mod ray`) but is missing from the sources; §3 of the spec
defines it as an origin point plus a direction vector with
`at(t) = origin + t·direction`. -/
structure Ray where
  origin : Vec3
  direction : Vec3

/-- `Ray::at` (modelled from the spec, see `Ray`). -/
noncomputable def Ray.at (r : Ray) (t : ℝ) : Vec3 := r.origin + t * r.direction

/-- `pub struct Lambertian` from `material.rs`. -/
structure Lambertian where
  albedo : Vec3

/-- `Lambertian::new`. -/
def Lambertian.new (albedo : Vec3) : Lambertian := ⟨albedo⟩

/-- `pub struct Metal` from `material.rs`. -/
structure Metal where
  albedo : Vec3
  fuzz : ℝ

/-- `Metal::new`: `let fuzz = if f < 1.0 { f } else { 1.0 };`. -/
noncomputable def Metal.new (albedo : Vec3) (f : ℝ) : Metal :=
  ⟨albedo, if f < 1 then f else 1⟩

/-- `pub struct Dielectric` from `material.rs`. -/
structure Dielectric where
  index_of_refraction : ℝ

/-- `Dielectric::new`. -/
def Dielectric.new (ir : ℝ) : Dielectric := ⟨ir⟩

/-- `Dielectric::reflectance` (Schlick approximation). -/
noncomputable def Dielectric.reflectance (cosine ref_idx : ℝ) : ℝ :=
  let r0 := ((1 - ref_idx) / (1 + ref_idx)) ^ 2
  r0 + (1 - r0) * (1 - cosine) ^ 5

/-- Closed sum of the three `Material` implementors of `material.rs`
(`dyn Material` dispatch rendered as a sum type, as §9 of the spec
suggests). -/
inductive Material where
  | lambertian (l : Lambertian)
  | metal (m : Metal)
  | dielectric (d : Dielectric)

/-- Hit record, from `sphere.rs` (`pub struct HitRecord`). -/
structure HitRecord where
  p : Vec3
  normal : Vec3
  mat : Material
  t : ℝ
  front_facing : Bool

/-- `HitRecord::set_face_normal`. -/
noncomputable def HitRecord.set_face_normal (rec : HitRecord) (r : Ray)
    (outward_normal : Vec3) : HitRecord :=
  let ff := decide (Vec3.dot r.direction outward_normal < 0)
  { rec with
      front_facing := ff
      normal := if ff then outward_normal else -outward_normal }

/-- The random draws one `Material::scatter` call may consume
(`Vec3::random_unit_vector`, `Vec3::random_in_unit_sphere`,
`random_f64`).  The source samples a process-global RNG (`random.rs`);
the embedding passes the drawn values explicitly. -/
structure RandDraws where
  unit_vec : Vec3
  in_sphere : Vec3
  uniform : ℝ

/-- `Material::scatter` for the three implementors in `material.rs`,
with the random draws passed explicitly (see `RandDraws`). -/
noncomputable def Material.scatter (m : Material) (rand : RandDraws) (r_in : Ray)
    (rec : HitRecord) : Option (Vec3 × Ray) :=
  match m with
  | .lambertian l =>
      let sd := rec.normal + rand.unit_vec
      let scatter_direction := if sd.near_zero then rec.normal else sd
      some (l.albedo, Ray.mk rec.p scatter_direction)
  | .metal m =>
      let reflected := Vec3.reflect (Vec3.unit_vector r_in.direction) rec.normal
      let scattered := Ray.mk rec.p (reflected + m.fuzz * rand.in_sphere)
      if 0 < Vec3.dot scattered.direction rec.normal then
        some (m.albedo, scattered)
      else
        none
  | .dielectric d =>
      let eta := if rec.front_facing then 1 / d.index_of_refraction
                 else d.index_of_refraction
      let unit_direction := Vec3.unit_vector r_in.direction
      let cos_theta := min (Vec3.dot (-unit_direction) rec.normal) 1
      let sin_theta := Real.sqrt (1 - cos_theta * cos_theta)
      let cannot_refract := 1 < eta * sin_theta
      let direction :=
        if cannot_refract ∨ rand.uniform < Dielectric.reflectance cos_theta eta then
          Vec3.reflect unit_direction rec.normal
        else
          Vec3.refract unit_direction rec.normal eta
      some (Vec3.ones, Ray.mk rec.p direction)

/-- `pub struct Sphere` from `sphere.rs`. -/
structure Sphere where
  center : Vec3
  radius : ℝ
  material : Material

/-- `Sphere::new`. -/
def Sphere.new (center : Vec3) (radius : ℝ) (material : Material) : Sphere :=
  ⟨center, radius, material⟩

/-- The local `a` of `Sphere::hit`: `r.direction.length_squared()`. -/
def sphereA (r : Ray) : ℝ := r.direction.length_squared

/-- The local `half_b` of `Sphere::hit`: `Vec3::dot(oc, r.direction)` with
`oc = r.origin - self.center`. -/
def sphereHalfB (s : Sphere) (r : Ray) : ℝ :=
  Vec3.dot (r.origin - s.center) r.direction

/-- The local `c` of `Sphere::hit`:
`oc.length_squared() - self.radius * self.radius`. -/
def sphereC (s : Sphere) (r : Ray) : ℝ :=
  (r.origin - s.center).length_squared - s.radius * s.radius

/-- The local `discriminant` of `Sphere::hit`: `half_b * half_b - a * c`. -/
def sphereDisc (s : Sphere) (r : Ray) : ℝ :=
  sphereHalfB s r * sphereHalfB s r - sphereA r * sphereC s r

/-- The first candidate root of `Sphere::hit`:
`(-half_b - sqrt_discriminant) / a`. -/
noncomputable def sphereRoot1 (s : Sphere) (r : Ray) : ℝ :=
  (-sphereHalfB s r - Real.sqrt (sphereDisc s r)) / sphereA r

/-- The second candidate root of `Sphere::hit`:
`(-half_b + sqrt_discriminant) / a`. -/
noncomputable def sphereRoot2 (s : Sphere) (r : Ray) : ℝ :=
  (-sphereHalfB s r + Real.sqrt (sphereDisc s r)) / sphereA r

/-- The `HitRecord` that `Sphere::hit` builds from an accepted `root`
(lines 96-105 of `sphere.rs`): the hit point, the outward normal
`(p - center) / radius`, the sphere's material, and the
`set_face_normal` orientation pass. -/
noncomputable def sphereRecord (s : Sphere) (r : Ray) (root : ℝ) : HitRecord :=
  let p := r.at root
  let outward_normal := (p - s.center) / s.radius
  HitRecord.set_face_normal
    { p := p, normal := outward_normal, mat := s.material, t := root,
      front_facing := false } r outward_normal

/-- `Sphere::hit` (`impl Hittable for Sphere`): reject when the
discriminant is negative, else take the smaller root unless it falls
outside `[t_min, t_max]`, then the larger root, else reject.  The `f64`
upper bound (instantiated with `f64::INFINITY` by `ray_color`) is
modelled by `WithTop ℝ`. -/
noncomputable def Sphere.hit (s : Sphere) (r : Ray) (t_min : ℝ)
    (t_max : WithTop ℝ) : Option HitRecord :=
  if sphereDisc s r < 0 then none
  else if sphereRoot1 s r < t_min ∨ t_max < (sphereRoot1 s r : WithTop ℝ) then
    if sphereRoot2 s r < t_min ∨ t_max < (sphereRoot2 s r : WithTop ℝ) then none
    else some (sphereRecord s r (sphereRoot2 s r))
  else some (sphereRecord s r (sphereRoot1 s r))

/-- `pub struct HittableList` from `sphere.rs`.  The program stores
`Vec<Box<dyn Hittable>>`; every object the program ever adds is a
`Sphere` (`random_scene`, `scene.rs`), so the children are spheres. -/
structure HittableList where
  objects : List Sphere

/-- `HittableList::new`. -/
def HittableList.new : HittableList := ⟨[]⟩

/-- `HittableList::add`. -/
def HittableList.add (l : HittableList) (s : Sphere) : HittableList :=
  ⟨l.objects ++ [s]⟩

/-- The loop of `HittableList::hit` (lines 50-57 of `sphere.rs`):
iterate children in order, keeping the closest hit found so far and
narrowing the upper bound to its `t`. -/
noncomputable def hitLoop (r : Ray) (t_min : ℝ) :
    List Sphere → WithTop ℝ → Option HitRecord → Option HitRecord
  | [], _, hit => hit
  | s :: rest, closest_so_far, hit =>
      match Sphere.hit s r t_min closest_so_far with
      | some candidate_hit => hitLoop r t_min rest (candidate_hit.t : WithTop ℝ) (some candidate_hit)
      | none => hitLoop r t_min rest closest_so_far hit

/-- `HittableList::hit` (`impl Hittable for HittableList`). -/
noncomputable def HittableList.hit (l : HittableList) (r : Ray) (t_min : ℝ)
    (t_max : WithTop ℝ) : Option HitRecord :=
  hitLoop r t_min l.objects t_max none

/-- `ray_color` from `main.rs` (lines 172-189), with the RNG modelled as
a stream of draw records indexed by recursion step. -/
noncomputable def ray_color (rng : ℕ → RandDraws) (r : Ray)
    (world : HittableList) (depth : ℤ) : Vec3 :=
  if _h : depth ≤ 0 then
    Vec3.zeros
  else
    match world.hit r 0.001 ⊤ with
    | some hit =>
        match hit.mat.scatter (rng 0) r hit with
        | some (attenuation, scattered) =>
            attenuation * ray_color (fun n => rng (n + 1)) scattered world (depth - 1)
        | none => Vec3.zeros
    | none =>
        let unit_direction := Vec3.unit_vector r.direction
        let t := 0.5 * (unit_direction.y + 1)
        (1 - t) * Vec3.ones + t * Vec3.mk 0.5 0.7 1
  termination_by depth.toNat
  decreasing_by omega

/-- `clamp` from `main.rs`: `x.max(min).min(max)`. -/
noncomputable def clamp (x lo hi : ℝ) : ℝ := min (max x lo) hi

/-- One gamma-corrected, clamped channel of `set_color` / `write_color`:
`clamp((channel * scale).sqrt(), 0.0, 0.999)` with
`scale = 1.0 / samples_per_pixel`. -/
noncomputable def gammaClamped (channel : ℝ) (samples_per_pixel : ℤ) : ℝ :=
  clamp (Real.sqrt (channel * (1 / (samples_per_pixel : ℝ)))) 0 0.999

/-- `set_color` from `main.rs` (lines 159-170).  The `as u32` casts of
the nonnegative values `256.0 * clamp(...)` truncate toward zero, i.e.
are `Nat.floor`; the `u32` shift-and-add
`(255 << 24) + (ur << 16) + (ug << 8) + ub` is modelled in `ℕ` (it never
wraps: each channel is at most `⌊256 * 0.999⌋ = 255`, proved below). -/
noncomputable def set_color (color : Vec3) (samples_per_pixel : ℤ) : ℕ :=
  let ur := Nat.floor (256 * gammaClamped color.x samples_per_pixel)
  let ug := Nat.floor (256 * gammaClamped color.y samples_per_pixel)
  let ub := Nat.floor (256 * gammaClamped color.z samples_per_pixel)
  255 * 2 ^ 24 + ur * 2 ^ 16 + ug * 2 ^ 8 + ub

/-- The line `write_color` from `main.rs` (lines 145-157) formats for one
pixel: the three channels scaled, gamma-corrected, clamped, scaled by 256
and truncated (`as i64`, equal to `Nat.floor` on these nonnegative
values), separated by spaces. -/
noncomputable def write_color_line (color : Vec3) (samples_per_pixel : ℤ) : String :=
  toString (Nat.floor (256 * gammaClamped color.x samples_per_pixel)) ++ " " ++
  toString (Nat.floor (256 * gammaClamped color.y samples_per_pixel)) ++ " " ++
  toString (Nat.floor (256 * gammaClamped color.z samples_per_pixel)) ++ "\n"

/-- The PPM header `main` writes before the render loop
(`main.rs` line 67): `P3\n<width> <height>\n255\n`. -/
def ppm_header (width height : ℕ) : String :=
  "P3\n" ++ toString width ++ " " ++ toString height ++ "\n255\n"

/-- What the body of the render loop in `main` (`main.rs` lines 71-91)
writes to the output file for one completed row: nothing.  The loop
publishes the row to the triple buffer and sends a `RenderStatus` on the
channel, but contains no file write (`write_color` is never called). -/
def row_file_lines (_row : List ℕ) : List String := []

/-- Everything the render thread of `main` writes to `image.ppm` during
a render whose rows complete as `rows`: the header (line 67), then the
per-row output of the loop body (see `row_file_lines`). -/
def render_file_lines (width height : ℕ) (rows : List (List ℕ)) : List String :=
  ppm_header width height :: (rows.map row_file_lines).flatten

/-- Modelled from the spec: the `triple_buffer` crate used by `main.rs`
is an external dependency whose sources are not part of this repository.
§9 of the spec describes it: "writer publishes by atomically swapping in
a new buffer, reader atomically swaps it out; ... the reader may always
drop unread intermediate values by design".  `back` is the most recently
published slot, `front` the reader-side output buffer, `updated` the
flag telling the reader a newer slot is available. -/
structure TripleBuffer (α : Type) where
  back : α
  front : α
  updated : Bool

/-- Writer side, `buf_input.publish()` after filling the input buffer
(`main.rs` lines 84-89): swap the new row into the shared slot,
overwriting any unread prior row, and mark it fresh. -/
def TripleBuffer.publish (b : TripleBuffer α) (row : α) : TripleBuffer α :=
  ⟨row, b.front, true⟩

/-- Reader side, `buf_output.update()` (`main.rs` line 118): if a fresh
slot is available swap it into the reader's output buffer and report
`true`; otherwise leave everything in place and report `false`. -/
def TripleBuffer.update (b : TripleBuffer α) : TripleBuffer α × Bool :=
  if b.updated then (⟨b.back, b.back, false⟩, true) else (b, false)

/-- Reader's view, `buf_output.output_buffer()` (`main.rs` line 119). -/
def TripleBuffer.output_buffer (b : TripleBuffer α) : α := b.front

/-- The geometric intersection predicate of §4.2: `t` is an intersection
parameter of ray `r` with sphere `s` when `|r.at(t) - center|² = radius²`. -/
noncomputable def hits_at (s : Sphere) (r : Ray) (t : ℝ) : Prop :=
  ((r.at t) - s.center).length_squared = s.radius * s.radius

theorem sphereRecord_t (s : Sphere) (r : Ray) (root : ℝ) :
    (sphereRecord s r root).t = root := rfl

theorem sphereRecord_mat (s : Sphere) (r : Ray) (root : ℝ) :
    (sphereRecord s r root).mat = s.material := rfl

theorem hits_at_iff (s : Sphere) (r : Ray) (t : ℝ) :
    hits_at s r t ↔
      sphereA r * t ^ 2 + 2 * sphereHalfB s r * t + sphereC s r = 0 := by
  unfold hits_at sphereA sphereHalfB sphereC Ray.at Vec3.length_squared Vec3.dot
  simp only [Vec3.add_x, Vec3.add_y, Vec3.add_z, Vec3.sub_x, Vec3.sub_y,
    Vec3.sub_z, Vec3.smul_x, Vec3.smul_y, Vec3.smul_z]
  constructor <;> intro h <;> linear_combination h

theorem sphereDisc_eq (s : Sphere) (r : Ray) :
    sphereDisc s r = sphereHalfB s r ^ 2 - sphereA r * sphereC s r := by
  unfold sphereDisc; ring

theorem quadratic_roots {a b c : ℝ} (ha : 0 < a) (hd : 0 ≤ b ^ 2 - a * c)
    (t : ℝ) :
    a * t ^ 2 + 2 * b * t + c = 0 ↔
      t = (-b - Real.sqrt (b ^ 2 - a * c)) / a ∨
      t = (-b + Real.sqrt (b ^ 2 - a * c)) / a := by
  have hane : a ≠ 0 := ne_of_gt ha
  have hs : Real.sqrt (b ^ 2 - a * c) * Real.sqrt (b ^ 2 - a * c)
      = b ^ 2 - a * c := Real.mul_self_sqrt hd
  constructor
  · intro h
    have key : (a * t + b) * (a * t + b)
        = Real.sqrt (b ^ 2 - a * c) * Real.sqrt (b ^ 2 - a * c) := by
      rw [hs]; nlinarith [h]
    rcases mul_self_eq_mul_self_iff.mp key with h1 | h1
    · right; field_simp; linarith [h1]
    · left; field_simp; linarith [h1]
  · rintro (rfl | rfl) <;> field_simp <;> nlinarith [hs]

theorem quadratic_no_roots {a b c : ℝ} (ha : 0 < a) (hd : b ^ 2 - a * c < 0)
    (t : ℝ) : a * t ^ 2 + 2 * b * t + c ≠ 0 := by
  intro h
  have h2 : a * (a * t ^ 2 + 2 * b * t + c) = 0 := by rw [h]; ring
  nlinarith [sq_nonneg (a * t + b), h2]

theorem sphereA_pos (r : Ray) (ha : sphereA r ≠ 0) : 0 < sphereA r :=
  lt_of_le_of_ne (Vec3.length_squared_nonneg r.direction) (Ne.symm ha)

theorem hits_at_iff_root (s : Sphere) (r : Ray) (t : ℝ)
    (ha : 0 < sphereA r) (hd : 0 ≤ sphereDisc s r) :
    hits_at s r t ↔ t = sphereRoot1 s r ∨ t = sphereRoot2 s r := by
  rw [hits_at_iff]
  rw [sphereDisc_eq] at hd
  have := quadratic_roots ha hd t
  unfold sphereRoot1 sphereRoot2
  rw [sphereDisc_eq]
  exact this

theorem sphereRoot1_le (s : Sphere) (r : Ray) (ha : 0 < sphereA r) :
    sphereRoot1 s r ≤ sphereRoot2 s r := by
  unfold sphereRoot1 sphereRoot2
  have hnn := Real.sqrt_nonneg (sphereDisc s r)
  rw [div_le_div_iff ha ha]
  nlinarith

/-- Full behavioural characterization of `Sphere.hit` at a finite upper
bound: a returned record is the `sphereRecord` of the smallest
intersection parameter in the closed interval `[t_min, t_max]`, and a
`none` answer means no intersection parameter lies in that interval. -/
theorem sphere_hit_char (s : Sphere) (r : Ray) (t_min t_max : ℝ)
    (ha : sphereA r ≠ 0) :
    (∀ rec, Sphere.hit s r t_min (t_max : WithTop ℝ) = some rec →
        hits_at s r rec.t ∧ t_min ≤ rec.t ∧ rec.t ≤ t_max ∧
        rec = sphereRecord s r rec.t ∧
        (∀ t, hits_at s r t → t_min ≤ t → t ≤ t_max → rec.t ≤ t)) ∧
    (Sphere.hit s r t_min (t_max : WithTop ℝ) = none →
        ∀ t, t_min ≤ t → t ≤ t_max → ¬hits_at s r t) := by
  have ha0 : 0 < sphereA r := sphereA_pos r ha
  constructor
  · intro rec hrec
    unfold Sphere.hit at hrec
    split_ifs at hrec with h1 h2 h3
    · -- root1 rejected, root2 accepted
      simp only [WithTop.coe_lt_coe, not_or, not_lt] at h2 h3
      obtain ⟨hlo, hhi⟩ := h3
      have hd : 0 ≤ sphereDisc s r := not_lt.mp h1
      injection hrec with hrec
      subst hrec
      rw [sphereRecord_t]
      refine ⟨(hits_at_iff_root s r _ ha0 hd).mpr (Or.inr rfl), hlo, hhi, rfl, ?_⟩
      intro t ht htmin htmax
      rcases (hits_at_iff_root s r t ha0 hd).mp ht with rfl | rfl
      · rcases h2 with hlt | hlt
        · exact absurd htmin (not_le.mpr hlt)
        · exact absurd htmax (not_le.mpr hlt)
      · exact le_refl _
    · -- root1 accepted
      simp only [WithTop.coe_lt_coe, not_or, not_lt] at h2
      obtain ⟨hlo, hhi⟩ := h2
      have hd : 0 ≤ sphereDisc s r := not_lt.mp h1
      injection hrec with hrec
      subst hrec
      rw [sphereRecord_t]
      refine ⟨(hits_at_iff_root s r _ ha0 hd).mpr (Or.inl rfl), hlo, hhi, rfl, ?_⟩
      intro t ht _ _
      rcases (hits_at_iff_root s r t ha0 hd).mp ht with rfl | rfl
      · exact le_refl _
      · exact sphereRoot1_le s r ha0
  · intro hrec t htmin htmax ht
    unfold Sphere.hit at hrec
    split_ifs at hrec with h1 h2 h3
    · -- negative discriminant
      rw [hits_at_iff] at ht
      rw [sphereDisc_eq] at h1
      exact quadratic_no_roots ha0 h1 t ht
    · -- both roots rejected
      have hd : 0 ≤ sphereDisc s r := not_lt.mp h1
      simp only [WithTop.coe_lt_coe] at h2 h3
      rcases (hits_at_iff_root s r t ha0 hd).mp ht with rfl | rfl
      · rcases h2 with hlt | hlt
        · exact absurd htmin (not_le.mpr hlt)
        · exact absurd htmax (not_le.mpr hlt)
      · rcases h3 with hlt | hlt
        · exact absurd htmin (not_le.mpr hlt)
        · exact absurd htmax (not_le.mpr hlt)

/-- Shrinking the upper bound keeps a hit whose parameter still fits:
the record `Sphere::hit` returns is unchanged. -/
theorem sphere_hit_narrow (s : Sphere) (r : Ray) (t_min : ℝ)
    {t_max t_max' : ℝ} {rec : HitRecord} (ha : sphereA r ≠ 0)
    (h : Sphere.hit s r t_min (t_max : WithTop ℝ) = some rec)
    (h1 : rec.t ≤ t_max') (h2 : t_max' ≤ t_max) :
    Sphere.hit s r t_min (t_max' : WithTop ℝ) = some rec := by
  have ha0 : 0 < sphereA r := sphereA_pos r ha
  unfold Sphere.hit at h ⊢
  split_ifs at h with hd hr1 hr2
  · -- root1 rejected at t_max, root2 accepted
    simp only [WithTop.coe_lt_coe, not_or, not_lt] at hr1 hr2
    injection h with h
    subst h
    rw [sphereRecord_t] at h1
    have hroot1 : sphereRoot1 s r < t_min := by
      rcases hr1 with hlt | hlt
      · exact hlt
      · exact absurd (le_trans (sphereRoot1_le s r ha0) hr2.2)
          (not_le.mpr hlt)
    rw [if_neg hd, if_pos, if_neg]
    · simp only [WithTop.coe_lt_coe, not_or, not_lt]
      exact ⟨hr2.1, h1⟩
    · exact Or.inl hroot1
  · -- root1 accepted at t_max
    simp only [WithTop.coe_lt_coe, not_or, not_lt] at hr1
    injection h with h
    subst h
    rw [sphereRecord_t] at h1
    rw [if_neg hd, if_neg]
    simp only [WithTop.coe_lt_coe, not_or, not_lt]
    exact ⟨hr1.1, h1⟩

/-- Growing the upper bound keeps a hit found at a smaller bound: the
candidate the loop of `HittableList::hit` keeps is also a hit of that
child at the original bound. -/
theorem sphere_hit_widen (s : Sphere) (r : Ray) (t_min : ℝ)
    {t_max t_max' : ℝ} {rec : HitRecord} (ha : sphereA r ≠ 0)
    (h : Sphere.hit s r t_min (t_max' : WithTop ℝ) = some rec)
    (h2 : t_max' ≤ t_max) :
    Sphere.hit s r t_min (t_max : WithTop ℝ) = some rec := by
  have ha0 : 0 < sphereA r := sphereA_pos r ha
  unfold Sphere.hit at h ⊢
  split_ifs at h with hd hr1 hr2
  · -- root1 rejected at t_max', root2 accepted at t_max'
    simp only [WithTop.coe_lt_coe, not_or, not_lt] at hr1 hr2
    have hroot1 : sphereRoot1 s r < t_min := by
      rcases hr1 with hlt | hlt
      · exact hlt
      · exact absurd (le_trans (sphereRoot1_le s r ha0) hr2.2)
          (not_le.mpr hlt)
    rw [if_neg hd, if_pos, if_neg]
    · exact h
    · simp only [WithTop.coe_lt_coe, not_or, not_lt]
      exact ⟨hr2.1, le_trans hr2.2 h2⟩
    · exact Or.inl hroot1
  · -- root1 accepted at t_max'
    simp only [WithTop.coe_lt_coe, not_or, not_lt] at hr1
    rw [if_neg hd, if_neg]
    · exact h
    · simp only [WithTop.coe_lt_coe, not_or, not_lt]
      exact ⟨hr1.1, le_trans hr1.2 h2⟩

theorem sphere_hit_bounds (s : Sphere) (r : Ray) {t_min t_max : ℝ}
    {rec : HitRecord} (ha : sphereA r ≠ 0)
    (h : Sphere.hit s r t_min (t_max : WithTop ℝ) = some rec) :
    t_min ≤ rec.t ∧ rec.t ≤ t_max := by
  obtain ⟨_, hlo, hhi, _, _⟩ := (sphere_hit_char s r t_min t_max ha).1 rec h
  exact ⟨hlo, hhi⟩

/-- Invariant of the loop of `HittableList::hit`: starting from an
accumulator whose parameter equals the current bound, the loop returns
the closest hit among the accumulator and the children, where each
child's candidacy is judged at the current bound. -/
theorem hitLoop_spec (r : Ray) (t_min : ℝ) (ha : sphereA r ≠ 0) :
    ∀ (l : List Sphere) (closest : ℝ) (acc : Option HitRecord),
      (∀ a, acc = some a → a.t = closest) →
      (∀ rec, hitLoop r t_min l (closest : WithTop ℝ) acc = some rec →
          rec.t ≤ closest ∧
          (acc = some rec ∨
            ∃ s ∈ l, Sphere.hit s r t_min (closest : WithTop ℝ) = some rec) ∧
          (∀ s ∈ l, ∀ rec',
            Sphere.hit s r t_min (closest : WithTop ℝ) = some rec' →
            rec.t ≤ rec'.t)) ∧
      (hitLoop r t_min l (closest : WithTop ℝ) acc = none →
          acc = none ∧
          ∀ s ∈ l, Sphere.hit s r t_min (closest : WithTop ℝ) = none) := by
  intro l
  induction l with
  | nil =>
      intro closest acc hacc
      constructor
      · intro rec hrec
        rw [show hitLoop r t_min [] (closest : WithTop ℝ) acc = acc from rfl]
          at hrec
        exact ⟨le_of_eq (hacc rec hrec), Or.inl hrec, by simp⟩
      · intro hrec
        rw [show hitLoop r t_min [] (closest : WithTop ℝ) acc = acc from rfl]
          at hrec
        exact ⟨hrec, by simp⟩
  | cons s rest ih =>
      intro closest acc hacc
      rcases hcase : Sphere.hit s r t_min (closest : WithTop ℝ) with _ | cand
      · -- child misses at the current bound
        have hunfold : hitLoop r t_min (s :: rest) (closest : WithTop ℝ) acc
            = hitLoop r t_min rest (closest : WithTop ℝ) acc := by
          simp only [hitLoop, hcase]
        constructor
        · intro rec hrec
          rw [hunfold] at hrec
          obtain ⟨hle, hmem, hmin⟩ := (ih closest acc hacc).1 rec hrec
          refine ⟨hle, ?_, ?_⟩
          · rcases hmem with hl | ⟨s', hs', hhit⟩
            · exact Or.inl hl
            · exact Or.inr ⟨s', List.mem_cons_of_mem s hs', hhit⟩
          · intro s' hs' rec' hhit
            rcases List.mem_cons.mp hs' with rfl | hs'
            · rw [hcase] at hhit
              exact absurd hhit (by simp)
            · exact hmin s' hs' rec' hhit
        · intro hrec
          rw [hunfold] at hrec
          obtain ⟨hnone, hall⟩ := (ih closest acc hacc).2 hrec
          refine ⟨hnone, ?_⟩
          intro s' hs'
          rcases List.mem_cons.mp hs' with rfl | hs'
          · exact hcase
          · exact hall s' hs'
      · -- child hits at the current bound: the bound narrows to its t
        have hunfold : hitLoop r t_min (s :: rest) (closest : WithTop ℝ) acc
            = hitLoop r t_min rest ((cand.t : ℝ) : WithTop ℝ) (some cand) := by
          simp only [hitLoop, hcase]
        obtain ⟨hclo, hchi⟩ := sphere_hit_bounds s r ha hcase
        have hacc' : ∀ a, (some cand : Option HitRecord) = some a →
            a.t = cand.t := by
          intro a haeq
          injection haeq with haeq
          rw [haeq]
        constructor
        · intro rec hrec
          rw [hunfold] at hrec
          obtain ⟨hle, hmem, hmin⟩ := (ih cand.t (some cand) hacc').1 rec hrec
          refine ⟨le_trans hle hchi, ?_, ?_⟩
          · rcases hmem with hl | ⟨s', hs', hhit⟩
            · injection hl with hl
              subst hl
              exact Or.inr ⟨s, List.mem_cons_self s rest, hcase⟩
            · exact Or.inr ⟨s', List.mem_cons_of_mem s hs',
                sphere_hit_widen s' r t_min ha hhit hchi⟩
          · intro s' hs' rec' hhit
            rcases List.mem_cons.mp hs' with rfl | hs'
            · rw [hcase] at hhit
              injection hhit with hhit
              subst hhit
              exact hle
            · rcases le_or_lt rec'.t cand.t with hct | hct
              · exact hmin s' hs' rec'
                  (sphere_hit_narrow s' r t_min ha hhit hct hchi)
              · exact le_trans hle (le_of_lt hct)
        · intro hrec
          rw [hunfold] at hrec
          obtain ⟨hnone, _⟩ := (ih cand.t (some cand) hacc').2 hrec
          exact absurd hnone (by simp)

theorem hitLoop_none_of_all_none (r : Ray) (t_min : ℝ) :
    ∀ (l : List Sphere) (t_max : WithTop ℝ),
      (∀ s ∈ l, Sphere.hit s r t_min t_max = none) →
      hitLoop r t_min l t_max none = none := by
  intro l
  induction l with
  | nil => intro t_max _; rfl
  | cons s rest ih =>
      intro t_max hall
      have hs : Sphere.hit s r t_min t_max = none :=
        hall s (List.mem_cons_self s rest)
      simp only [hitLoop, hs]
      exact ih t_max fun s' hs' => hall s' (List.mem_cons_of_mem s hs')

/-- Behavioural characterization of `HittableList::hit` at a finite
upper bound: a returned record is a child's hit of minimal parameter;
`none` is returned exactly when every child misses. -/
theorem list_hit_char (L : HittableList) (r : Ray) (t_min t_max : ℝ)
    (ha : sphereA r ≠ 0) :
    (∀ rec, L.hit r t_min (t_max : WithTop ℝ) = some rec →
        (∃ s ∈ L.objects,
          Sphere.hit s r t_min (t_max : WithTop ℝ) = some rec) ∧
        ∀ s ∈ L.objects, ∀ rec',
          Sphere.hit s r t_min (t_max : WithTop ℝ) = some rec' →
          rec.t ≤ rec'.t) ∧
    (L.hit r t_min (t_max : WithTop ℝ) = none ↔
        ∀ s ∈ L.objects,
          Sphere.hit s r t_min (t_max : WithTop ℝ) = none) := by
  have hacc : ∀ a : HitRecord, (none : Option HitRecord) = some a →
      a.t = t_max := by
    intro a h
    exact absurd h (by simp)
  constructor
  · intro rec hrec
    obtain ⟨_, hmem, hmin⟩ :=
      (hitLoop_spec r t_min ha L.objects t_max none hacc).1 rec hrec
    rcases hmem with hl | hmem
    · exact absurd hl.symm (by simp)
    · exact ⟨hmem, hmin⟩
  · constructor
    · intro hrec
      exact ((hitLoop_spec r t_min ha L.objects t_max none hacc).2 hrec).2
    · intro hall
      exact hitLoop_none_of_all_none r t_min L.objects t_max hall

/-- A concrete ray for witnesses: origin at the world origin, looking
down the negative z axis. -/
def exRay : Ray := ⟨⟨0, 0, 0⟩, ⟨0, 0, -1⟩⟩

/-- A red Lambertian sphere of radius 1 centred at `(0,0,-2)`; `exRay`
meets it at `t = 1` (entry) and `t = 3` (exit). -/
def exSphereA : Sphere := ⟨⟨0, 0, -2⟩, 1, .lambertian ⟨⟨1, 0, 0⟩⟩⟩

/-- A blue Lambertian sphere of radius 2 centred at `(0,0,1)`; `exRay`
meets it at `t = -3` and `t = 1`, so its first valid hit is also at
`t = 1` — a tie with `exSphereA`. -/
def exSphereB : Sphere := ⟨⟨0, 0, 1⟩, 2, .lambertian ⟨⟨0, 0, 1⟩⟩⟩

theorem exRay_a : sphereA exRay = 1 := by
  unfold sphereA exRay Vec3.length_squared
  norm_num

theorem exA_disc : sphereDisc exSphereA exRay = 1 := by
  unfold sphereDisc sphereA sphereHalfB sphereC exSphereA exRay
    Vec3.length_squared Vec3.dot
  simp only [Vec3.sub_x, Vec3.sub_y, Vec3.sub_z]
  norm_num

theorem exA_root1 : sphereRoot1 exSphereA exRay = 1 := by
  unfold sphereRoot1
  rw [exA_disc, exRay_a, Real.sqrt_one]
  have : sphereHalfB exSphereA exRay = -2 := by
    unfold sphereHalfB exSphereA exRay Vec3.dot
    simp only [Vec3.sub_x, Vec3.sub_y, Vec3.sub_z]
    norm_num
  rw [this]
  norm_num

theorem exA_root2 : sphereRoot2 exSphereA exRay = 3 := by
  unfold sphereRoot2
  rw [exA_disc, exRay_a, Real.sqrt_one]
  have : sphereHalfB exSphereA exRay = -2 := by
    unfold sphereHalfB exSphereA exRay Vec3.dot
    simp only [Vec3.sub_x, Vec3.sub_y, Vec3.sub_z]
    norm_num
  rw [this]
  norm_num

/-- The record `Sphere::hit` builds for `exSphereA` at root 1: hit point
`(0,0,-1)`, outward (and kept) normal `(0,0,1)`, front facing. -/
theorem exA_record : sphereRecord exSphereA exRay 1 =
    ⟨⟨0, 0, -1⟩, ⟨0, 0, 1⟩, Material.lambertian ⟨⟨1, 0, 0⟩⟩, 1, true⟩ := by
  unfold sphereRecord HitRecord.set_face_normal Ray.at exSphereA exRay
  simp only [Vec3.add_x, Vec3.add_y, Vec3.add_z, Vec3.sub_x, Vec3.sub_y,
    Vec3.sub_z, Vec3.smul_x, Vec3.smul_y, Vec3.smul_z, Vec3.divs_x,
    Vec3.divs_y, Vec3.divs_z, Vec3.dot]
  norm_num [HitRecord.mk.injEq, Vec3.ext_iff, decide_eq_true_eq]

theorem exA_hit0 : Sphere.hit exSphereA exRay 0 ((10 : ℝ) : WithTop ℝ) =
    some ⟨⟨0, 0, -1⟩, ⟨0, 0, 1⟩, Material.lambertian ⟨⟨1, 0, 0⟩⟩, 1, true⟩ := by
  unfold Sphere.hit
  rw [exA_disc, exA_root1, exA_record]
  norm_num [WithTop.coe_lt_coe]

theorem exA_hit1 : Sphere.hit exSphereA exRay 1 ((10 : ℝ) : WithTop ℝ) =
    some ⟨⟨0, 0, -1⟩, ⟨0, 0, 1⟩, Material.lambertian ⟨⟨1, 0, 0⟩⟩, 1, true⟩ := by
  unfold Sphere.hit
  rw [exA_disc, exA_root1, exA_record]
  norm_num [WithTop.coe_lt_coe]

theorem exA_hit_at1 : Sphere.hit exSphereA exRay 0 ((1 : ℝ) : WithTop ℝ) =
    some ⟨⟨0, 0, -1⟩, ⟨0, 0, 1⟩, Material.lambertian ⟨⟨1, 0, 0⟩⟩, 1, true⟩ := by
  unfold Sphere.hit
  rw [exA_disc, exA_root1, exA_record]
  norm_num [WithTop.coe_lt_coe]

theorem sqrt_four : Real.sqrt 4 = 2 := by
  rw [show (4 : ℝ) = 2 ^ 2 by norm_num]
  exact Real.sqrt_sq (by norm_num)

theorem exB_disc : sphereDisc exSphereB exRay = 4 := by
  unfold sphereDisc sphereA sphereHalfB sphereC exSphereB exRay
    Vec3.length_squared Vec3.dot
  simp only [Vec3.sub_x, Vec3.sub_y, Vec3.sub_z]
  norm_num

theorem exB_halfB : sphereHalfB exSphereB exRay = 1 := by
  unfold sphereHalfB exSphereB exRay Vec3.dot
  simp only [Vec3.sub_x, Vec3.sub_y, Vec3.sub_z]
  norm_num

theorem exB_root1 : sphereRoot1 exSphereB exRay = -3 := by
  unfold sphereRoot1
  rw [exB_disc, exRay_a, sqrt_four, exB_halfB]
  norm_num

theorem exB_root2 : sphereRoot2 exSphereB exRay = 1 := by
  unfold sphereRoot2
  rw [exB_disc, exRay_a, sqrt_four, exB_halfB]
  norm_num

/-- The record `Sphere::hit` builds for `exSphereB` at root 1: same hit
point and same stored normal as `exSphereA`'s record, but back facing
and carrying `exSphereB`'s material. -/
theorem exB_record : sphereRecord exSphereB exRay 1 =
    ⟨⟨0, 0, -1⟩, ⟨0, 0, 1⟩, Material.lambertian ⟨⟨0, 0, 1⟩⟩, 1, false⟩ := by
  unfold sphereRecord HitRecord.set_face_normal Ray.at exSphereB exRay
  simp only [Vec3.add_x, Vec3.add_y, Vec3.add_z, Vec3.sub_x, Vec3.sub_y,
    Vec3.sub_z, Vec3.smul_x, Vec3.smul_y, Vec3.smul_z, Vec3.divs_x,
    Vec3.divs_y, Vec3.divs_z, Vec3.dot]
  norm_num [HitRecord.mk.injEq, Vec3.ext_iff, decide_eq_false_iff_not]

theorem exB_hit0 : Sphere.hit exSphereB exRay 0 ((10 : ℝ) : WithTop ℝ) =
    some ⟨⟨0, 0, -1⟩, ⟨0, 0, 1⟩, Material.lambertian ⟨⟨0, 0, 1⟩⟩, 1, false⟩ := by
  unfold Sphere.hit
  rw [exB_disc, exB_root1, exB_root2, exB_record]
  norm_num [WithTop.coe_lt_coe]

theorem exB_hit_at1 : Sphere.hit exSphereB exRay 0 ((1 : ℝ) : WithTop ℝ) =
    some ⟨⟨0, 0, -1⟩, ⟨0, 0, 1⟩, Material.lambertian ⟨⟨0, 0, 1⟩⟩, 1, false⟩ := by
  unfold Sphere.hit
  rw [exB_disc, exB_root1, exB_root2, exB_record]
  norm_num [WithTop.coe_lt_coe]

/-- **C2** (amended): for every ray with nonzero direction, sphere, and
bounds `t_min ≤ t_max`, `Sphere::hit` returns the nearest intersection
whose ray parameter `t` lies in the closed interval `[t_min, t_max]`,
and returns `none` when no intersection with `t` in that interval
exists.  (The claim's half-open interval `(t_min, t_max]` fails at the
lower endpoint, see the counterexample: the code's rejection test is
`root < t_min`, which accepts `root = t_min`.) -/
theorem c2_sphere_hit_nearest_closed (s : Sphere) (r : Ray)
    (t_min t_max : ℝ) (ha : r.direction.length_squared ≠ 0)
    (hb : t_min ≤ t_max) :
    (∀ rec, Sphere.hit s r t_min (t_max : WithTop ℝ) = some rec →
        hits_at s r rec.t ∧ t_min ≤ rec.t ∧ rec.t ≤ t_max ∧
        ∀ t, hits_at s r t → t_min ≤ t → t ≤ t_max → rec.t ≤ t) ∧
    (Sphere.hit s r t_min (t_max : WithTop ℝ) = none →
        ∀ t, t_min ≤ t → t ≤ t_max → ¬hits_at s r t) := by
  obtain ⟨h1, h2⟩ := sphere_hit_char s r t_min t_max ha
  refine ⟨?_, h2⟩
  intro rec h
  obtain ⟨ka, kb, kc, _, ke⟩ := h1 rec h
  exact ⟨ka, kb, kc, ke⟩

/-- Witness for `c2_sphere_hit_nearest_closed` at a concrete sphere and
ray (the ray `exRay` meets `exSphereA` at `t = 1` and `t = 3`). -/
theorem c2_witness :
    exRay.direction.length_squared ≠ 0 ∧ ((0 : ℝ) ≤ 10) ∧
    ((∀ rec, Sphere.hit exSphereA exRay 0 ((10 : ℝ) : WithTop ℝ) = some rec →
        hits_at exSphereA exRay rec.t ∧ 0 ≤ rec.t ∧ rec.t ≤ 10 ∧
        ∀ t, hits_at exSphereA exRay t → 0 ≤ t → t ≤ 10 → rec.t ≤ t) ∧
    (Sphere.hit exSphereA exRay 0 ((10 : ℝ) : WithTop ℝ) = none →
        ∀ t, 0 ≤ t → t ≤ 10 → ¬hits_at exSphereA exRay t)) := by
  have ha : exRay.direction.length_squared ≠ 0 := by
    unfold exRay Vec3.length_squared
    norm_num
  exact ⟨ha, by norm_num,
    c2_sphere_hit_nearest_closed exSphereA exRay 0 10 ha (by norm_num)⟩

/-- **C2** counterexample to the half-open interval `(t_min, t_max]` of
the claim: with `t_min = 1`, `t_max = 10`, `Sphere::hit` on `exSphereA`
returns the intersection at `t = 1 = t_min`, which does not lie in
`(1, 10]`, even though an intersection with parameter in `(1, 10]`
exists (`t = 3`), so the returned hit is neither `none` nor the nearest
intersection of the claimed interval. -/
theorem c2_counterexample :
    Option.map HitRecord.t
      (Sphere.hit exSphereA exRay 1 ((10 : ℝ) : WithTop ℝ)) = some 1 ∧
    ¬(1 < (1 : ℝ)) ∧
    hits_at exSphereA exRay 3 ∧ 1 < (3 : ℝ) ∧ (3 : ℝ) ≤ 10 := by
  refine ⟨?_, by norm_num, ?_, by norm_num, by norm_num⟩
  · rw [exA_hit1]
    rfl
  · unfold hits_at Ray.at exSphereA exRay Vec3.length_squared
    simp only [Vec3.add_x, Vec3.add_y, Vec3.add_z, Vec3.sub_x, Vec3.sub_y,
      Vec3.sub_z, Vec3.smul_x, Vec3.smul_y, Vec3.smul_z]
    norm_num

theorem Vec3.dot_neg_right (u v : Vec3) :
    Vec3.dot u (-v) = -Vec3.dot u v := by
  unfold Vec3.dot
  simp only [Vec3.neg_x, Vec3.neg_y, Vec3.neg_z]
  ring

/-- Orientation facts of the record `Sphere::hit` builds: the
front-facing flag is `set_face_normal`'s test, and the stored normal is
oriented against the ray. -/
theorem sphereRecord_front_iff (s : Sphere) (r : Ray) (root : ℝ) :
    ((sphereRecord s r root).front_facing = true ↔
      Vec3.dot r.direction
        (((sphereRecord s r root).p - s.center) / s.radius) < 0) ∧
    Vec3.dot r.direction (sphereRecord s r root).normal ≤ 0 := by
  unfold sphereRecord HitRecord.set_face_normal
  constructor
  · simp [decide_eq_true_eq]
  · by_cases hd :
      Vec3.dot r.direction ((r.at root - s.center) / s.radius) < 0
    · simp only [decide_eq_true (p := _) hd]
      rw [if_pos trivial]
      exact le_of_lt hd
    · simp only [decide_eq_false (p := _) hd]
      rw [if_neg Bool.false_ne_true]
      rw [Vec3.dot_neg_right]
      push_neg at hd
      linarith

/-- **C9**: whenever `Sphere::hit` returns a hit record, the
`front_facing` flag is true exactly when the dot product of the ray
direction with the outward normal `(p - center)/radius` is negative,
and the stored normal satisfies `dot(direction, normal) ≤ 0` — the
returned normal never points along the incoming ray. -/
theorem c9_face_normal_orientation (s : Sphere) (r : Ray) (t_min : ℝ)
    (t_max : WithTop ℝ) (rec : HitRecord)
    (h : Sphere.hit s r t_min t_max = some rec) :
    (rec.front_facing = true ↔
      Vec3.dot r.direction ((rec.p - s.center) / s.radius) < 0) ∧
    Vec3.dot r.direction rec.normal ≤ 0 := by
  unfold Sphere.hit at h
  split_ifs at h
  · injection h with h
    subst h
    exact sphereRecord_front_iff s r (sphereRoot2 s r)
  · injection h with h
    subst h
    exact sphereRecord_front_iff s r (sphereRoot1 s r)

/-- Witness for `c9_face_normal_orientation` on the concrete hit of
`exRay` against `exSphereA`. -/
theorem c9_witness :
    (Sphere.hit exSphereA exRay 0 ((10 : ℝ) : WithTop ℝ) =
      some ⟨⟨0, 0, -1⟩, ⟨0, 0, 1⟩, Material.lambertian ⟨⟨1, 0, 0⟩⟩, 1, true⟩) ∧
    ((true = true ↔
        Vec3.dot exRay.direction
          (((⟨0, 0, -1⟩ : Vec3) - exSphereA.center) / exSphereA.radius) < 0) ∧
      Vec3.dot exRay.direction (⟨0, 0, 1⟩ : Vec3) ≤ 0) :=
  ⟨exA_hit0, c9_face_normal_orientation exSphereA exRay 0 _ _ exA_hit0⟩

/-- **C3** (amended): for every ray with nonzero direction and bounds
`t_min ≤ t_max`, `HittableList::hit` returns a child hit with the
smallest `t` in range (or `none` when every child misses); the `t` of
the result is unchanged under any permutation of the children; and for
two spheres whose hits on the ray have distinct parameters, the hit
with the smaller `t` is returned regardless of insertion order.  (Full
record invariance under permutation fails on exact `t` ties — a later
child whose hit has the same `t` replaces the earlier record — see the
counterexample.) -/
theorem c3_list_hit_closest (r : Ray) (t_min t_max : ℝ)
    (ha : r.direction.length_squared ≠ 0) (hb : t_min ≤ t_max) :
    (∀ (L : HittableList) rec,
        L.hit r t_min (t_max : WithTop ℝ) = some rec →
        (∃ s ∈ L.objects,
          Sphere.hit s r t_min (t_max : WithTop ℝ) = some rec) ∧
        ∀ s ∈ L.objects, ∀ rec',
          Sphere.hit s r t_min (t_max : WithTop ℝ) = some rec' →
          rec.t ≤ rec'.t) ∧
    (∀ l l' : List Sphere, l.Perm l' →
        Option.map HitRecord.t
          (HittableList.hit ⟨l⟩ r t_min (t_max : WithTop ℝ)) =
        Option.map HitRecord.t
          (HittableList.hit ⟨l'⟩ r t_min (t_max : WithTop ℝ))) ∧
    (∀ (A B : Sphere) (recA recB : HitRecord),
        Sphere.hit A r t_min (t_max : WithTop ℝ) = some recA →
        Sphere.hit B r t_min (t_max : WithTop ℝ) = some recB →
        recA.t < recB.t →
        HittableList.hit ⟨[A, B]⟩ r t_min (t_max : WithTop ℝ) = some recA ∧
        HittableList.hit ⟨[B, A]⟩ r t_min (t_max : WithTop ℝ) = some recA) := by
  refine ⟨fun L => (list_hit_char L r t_min t_max ha).1, ?_, ?_⟩
  · intro l l' hperm
    rcases hl : HittableList.hit ⟨l⟩ r t_min (t_max : WithTop ℝ) with _ | rec
    · have hall := (list_hit_char ⟨l⟩ r t_min t_max ha).2.mp hl
      have hl' : HittableList.hit ⟨l'⟩ r t_min (t_max : WithTop ℝ) = none :=
        (list_hit_char ⟨l'⟩ r t_min t_max ha).2.mpr
          fun s hs => hall s (hperm.mem_iff.mpr hs)
      rw [hl']
    · rcases hl' : HittableList.hit ⟨l'⟩ r t_min (t_max : WithTop ℝ)
        with _ | rec'
      · obtain ⟨s0, hs0, hhit0⟩ :=
          ((list_hit_char ⟨l⟩ r t_min t_max ha).1 rec hl).1
        have := (list_hit_char ⟨l'⟩ r t_min t_max ha).2.mp hl' s0
          (hperm.mem_iff.mp hs0)
        rw [this] at hhit0
        exact absurd hhit0 (by simp)
      · obtain ⟨⟨s0, hs0, hhit0⟩, hmin⟩ :=
          (list_hit_char ⟨l⟩ r t_min t_max ha).1 rec hl
        obtain ⟨⟨s1, hs1, hhit1⟩, hmin'⟩ :=
          (list_hit_char ⟨l'⟩ r t_min t_max ha).1 rec' hl'
        have h1 : rec.t ≤ rec'.t :=
          hmin s1 (hperm.mem_iff.mpr hs1) rec' hhit1
        have h2 : rec'.t ≤ rec.t :=
          hmin' s0 (hperm.mem_iff.mp hs0) rec hhit0
        show some rec.t = some rec'.t
        rw [le_antisymm h1 h2]
  · intro A B recA recB hA hB hAB
    obtain ⟨hAlo, hAhi⟩ := sphere_hit_bounds A r ha hA
    obtain ⟨hBlo, hBhi⟩ := sphere_hit_bounds B r ha hB
    have hBn : Sphere.hit B r t_min ((recA.t : ℝ) : WithTop ℝ) = none := by
      rcases hx : Sphere.hit B r t_min ((recA.t : ℝ) : WithTop ℝ)
        with _ | recX
      · rfl
      · have hw : Sphere.hit B r t_min (t_max : WithTop ℝ) = some recX :=
          sphere_hit_widen B r t_min ha hx hAhi
        rw [hB] at hw
        injection hw with hw
        obtain ⟨_, hXhi⟩ := sphere_hit_bounds B r ha hx
        rw [← hw] at hXhi
        exact absurd (lt_of_lt_of_le hAB hXhi) (lt_irrefl _)
    have hAn : Sphere.hit A r t_min ((recB.t : ℝ) : WithTop ℝ) = some recA :=
      sphere_hit_narrow A r t_min ha hA (le_of_lt hAB) hBhi
    constructor
    · show hitLoop r t_min [A, B] (t_max : WithTop ℝ) none = some recA
      simp only [hitLoop, hA, hBn]
    · show hitLoop r t_min [B, A] (t_max : WithTop ℝ) none = some recA
      simp only [hitLoop, hB, hAn]

/-- Witness for `c3_list_hit_closest` at the concrete ray `exRay`
with bounds `[0, 10]`. -/
theorem c3_witness :
    exRay.direction.length_squared ≠ 0 ∧ ((0 : ℝ) ≤ 10) ∧
    ((∀ (L : HittableList) rec,
        L.hit exRay 0 ((10 : ℝ) : WithTop ℝ) = some rec →
        (∃ s ∈ L.objects,
          Sphere.hit s exRay 0 ((10 : ℝ) : WithTop ℝ) = some rec) ∧
        ∀ s ∈ L.objects, ∀ rec',
          Sphere.hit s exRay 0 ((10 : ℝ) : WithTop ℝ) = some rec' →
          rec.t ≤ rec'.t) ∧
    (∀ l l' : List Sphere, l.Perm l' →
        Option.map HitRecord.t
          (HittableList.hit ⟨l⟩ exRay 0 ((10 : ℝ) : WithTop ℝ)) =
        Option.map HitRecord.t
          (HittableList.hit ⟨l'⟩ exRay 0 ((10 : ℝ) : WithTop ℝ))) ∧
    (∀ (A B : Sphere) (recA recB : HitRecord),
        Sphere.hit A exRay 0 ((10 : ℝ) : WithTop ℝ) = some recA →
        Sphere.hit B exRay 0 ((10 : ℝ) : WithTop ℝ) = some recB →
        recA.t < recB.t →
        HittableList.hit ⟨[A, B]⟩ exRay 0 ((10 : ℝ) : WithTop ℝ)
          = some recA ∧
        HittableList.hit ⟨[B, A]⟩ exRay 0 ((10 : ℝ) : WithTop ℝ)
          = some recA)) := by
  have ha : exRay.direction.length_squared ≠ 0 := by
    unfold exRay Vec3.length_squared
    norm_num
  exact ⟨ha, by norm_num, c3_list_hit_closest exRay 0 10 ha (by norm_num)⟩

/-- **C3** counterexample to full-record permutation invariance: the
ray `exRay` hits `exSphereA` and `exSphereB` both first at `t = 1` (an
exact tie).  The loop of `HittableList::hit` lets a later child whose
hit has the same `t` replace the earlier record (`Sphere::hit` accepts
`root = t_max`), so the two insertion orders return the records of
different spheres — different material and `front_facing` flag. -/
theorem c3_counterexample :
    HittableList.hit ⟨[exSphereA, exSphereB]⟩ exRay 0 ((10 : ℝ) : WithTop ℝ) ≠
    HittableList.hit ⟨[exSphereB, exSphereA]⟩ exRay 0 ((10 : ℝ) : WithTop ℝ) := by
  have h1 : HittableList.hit ⟨[exSphereA, exSphereB]⟩ exRay 0
      ((10 : ℝ) : WithTop ℝ) =
      some ⟨⟨0, 0, -1⟩, ⟨0, 0, 1⟩, Material.lambertian ⟨⟨0, 0, 1⟩⟩, 1, false⟩ := by
    show hitLoop exRay 0 [exSphereA, exSphereB] ((10 : ℝ) : WithTop ℝ) none =
      some ⟨⟨0, 0, -1⟩, ⟨0, 0, 1⟩, Material.lambertian ⟨⟨0, 0, 1⟩⟩, 1, false⟩
    simp only [hitLoop, exA_hit0, exB_hit_at1]
  have h2 : HittableList.hit ⟨[exSphereB, exSphereA]⟩ exRay 0
      ((10 : ℝ) : WithTop ℝ) =
      some ⟨⟨0, 0, -1⟩, ⟨0, 0, 1⟩, Material.lambertian ⟨⟨1, 0, 0⟩⟩, 1, true⟩ := by
    show hitLoop exRay 0 [exSphereB, exSphereA] ((10 : ℝ) : WithTop ℝ) none =
      some ⟨⟨0, 0, -1⟩, ⟨0, 0, 1⟩, Material.lambertian ⟨⟨1, 0, 0⟩⟩, 1, true⟩
    simp only [hitLoop, exB_hit0, exA_hit_at1]
  rw [h1, h2]
  intro hc
  injection hc with hc
  have := congrArg HitRecord.front_facing hc
  simp at this

/-- **C4**: `ray_color(r, world, depth)` equals black when `depth ≤ 0`;
otherwise, when the world is hit with `t` range lower bound `0.001` and
upper bound infinity and the material scatters, the attenuation times
(componentwise) the colour of the scattered ray at `depth - 1`; black
when the material absorbs; and, on a miss, the vertical gradient
`(1 - t)·white + t·(0.5, 0.7, 1.0)` with
`t = 0.5·(unit_direction.y + 1)`. -/
theorem c4_ray_color_eq (rng : ℕ → RandDraws) (r : Ray)
    (world : HittableList) (depth : ℤ) :
    ray_color rng r world depth =
      if depth ≤ 0 then Vec3.zeros
      else
        match world.hit r 0.001 ⊤ with
        | some hit =>
            match hit.mat.scatter (rng 0) r hit with
            | some (attenuation, scattered) =>
                attenuation *
                  ray_color (fun n => rng (n + 1)) scattered world (depth - 1)
            | none => Vec3.zeros
        | none =>
            (1 - 0.5 * ((Vec3.unit_vector r.direction).y + 1)) * Vec3.ones +
            (0.5 * ((Vec3.unit_vector r.direction).y + 1)) *
              Vec3.mk 0.5 0.7 1 := by
  rw [ray_color]
  split_ifs with h
  · rfl
  · rfl

/-- **C5**: for every incoming ray, hit record, and random draw,
`Dielectric::scatter` returns `Some`, and the attenuation colour it
returns is exactly `(1, 1, 1)`. -/
theorem c5_dielectric_always_scatters_white (d : Dielectric)
    (rand : RandDraws) (r_in : Ray) (rec : HitRecord) :
    ∃ scattered, Material.scatter (.dielectric d) rand r_in rec =
      some (⟨1, 1, 1⟩, scattered) :=
  ⟨_, rfl⟩

/-- **C6**: `Metal::scatter` returns `Some` — with attenuation equal to
its albedo and the fuzz-perturbed reflected direction — exactly when
that direction has positive dot product with the hit normal; otherwise
it returns `none` (the ray is absorbed). -/
theorem c6_metal_scatter_iff (m : Metal) (rand : RandDraws) (r_in : Ray)
    (rec : HitRecord) :
    (0 < Vec3.dot
        (Vec3.reflect (Vec3.unit_vector r_in.direction) rec.normal +
          m.fuzz * rand.in_sphere) rec.normal →
      Material.scatter (.metal m) rand r_in rec =
        some (m.albedo,
          Ray.mk rec.p
            (Vec3.reflect (Vec3.unit_vector r_in.direction) rec.normal +
              m.fuzz * rand.in_sphere))) ∧
    (¬(0 < Vec3.dot
        (Vec3.reflect (Vec3.unit_vector r_in.direction) rec.normal +
          m.fuzz * rand.in_sphere) rec.normal) →
      Material.scatter (.metal m) rand r_in rec = none) := by
  constructor
  · intro h
    simp only [Material.scatter]
    rw [if_pos h]
  · intro h
    simp only [Material.scatter]
    rw [if_neg h]

/-- A metal with fuzz 0 for the C6 witness. -/
def exMetal : Metal := ⟨⟨0.8, 0.8, 0.8⟩, 0⟩

/-- A zero random draw for the C6 witness; with fuzz 0 the perturbation
vanishes anyway. -/
def exMetalRand : RandDraws := ⟨⟨0, 0, 0⟩, ⟨0, 0, 0⟩, 0⟩

/-- An incoming ray pointing straight down for the C6 witness. -/
def exMetalRay : Ray := ⟨⟨0, 0, 0⟩, ⟨0, -1, 0⟩⟩

/-- A hit with upward normal for the C6 witness. -/
def exMetalRec : HitRecord :=
  ⟨⟨0, 0, 0⟩, ⟨0, 1, 0⟩, .metal ⟨⟨0.8, 0.8, 0.8⟩, 0⟩, 1, true⟩

theorem exMetal_dir_dot :
    0 < Vec3.dot
      (Vec3.reflect (Vec3.unit_vector exMetalRay.direction)
          exMetalRec.normal + exMetal.fuzz * exMetalRand.in_sphere)
      exMetalRec.normal := by
  unfold exMetalRay exMetalRec exMetal exMetalRand Vec3.reflect
    Vec3.unit_vector Vec3.length Vec3.length_squared Vec3.dot
  norm_num [Real.sqrt_one]

/-- Witness for `c6_metal_scatter_iff`: fuzz-0 metal, normal `(0,1,0)`,
incoming direction `(0,-1,0)` — the reflected direction `(0,1,0)` has
positive dot product with the normal and is scattered. -/
theorem c6_witness :
    (0 < Vec3.dot
        (Vec3.reflect (Vec3.unit_vector exMetalRay.direction)
            exMetalRec.normal + exMetal.fuzz * exMetalRand.in_sphere)
        exMetalRec.normal) ∧
    Material.scatter (.metal exMetal) exMetalRand exMetalRay exMetalRec =
      some (exMetal.albedo,
        Ray.mk exMetalRec.p
          (Vec3.reflect (Vec3.unit_vector exMetalRay.direction)
              exMetalRec.normal + exMetal.fuzz * exMetalRand.in_sphere)) :=
  ⟨exMetal_dir_dot,
    (c6_metal_scatter_iff exMetal exMetalRand exMetalRay exMetalRec).1
      exMetal_dir_dot⟩

theorem gammaClamped_mem (c : ℝ) (n : ℤ) :
    0 ≤ gammaClamped c n ∧ gammaClamped c n ≤ 0.999 := by
  unfold gammaClamped clamp
  constructor
  · exact le_min (le_max_right _ _) (by norm_num)
  · exact min_le_right _ _

theorem gammaClamped_floor_le (c : ℝ) (n : ℤ) :
    Nat.floor (256 * gammaClamped c n) ≤ 255 := by
  obtain ⟨h0, h1⟩ := gammaClamped_mem c n
  have hlt : 256 * gammaClamped c n < 256 := by nlinarith
  have h256 : (0 : ℝ) ≤ 256 * gammaClamped c n := by nlinarith
  have h2 : Nat.floor (256 * gammaClamped c n) < 256 :=
    (Nat.floor_lt h256).mpr (by push_cast; linarith)
  omega

theorem gammaClamped_zero (n : ℤ) : gammaClamped 0 n = 0 := by
  unfold gammaClamped clamp
  rw [zero_mul, Real.sqrt_zero]
  norm_num

theorem pack_bytes (ur ug ub : ℕ) (hur : ur ≤ 255) (hug : ug ≤ 255)
    (hub : ub ≤ 255) :
    (255 * 2 ^ 24 + ur * 2 ^ 16 + ug * 2 ^ 8 + ub) / 2 ^ 24 % 2 ^ 8 = 255 ∧
    (255 * 2 ^ 24 + ur * 2 ^ 16 + ug * 2 ^ 8 + ub) / 2 ^ 16 % 2 ^ 8 = ur ∧
    (255 * 2 ^ 24 + ur * 2 ^ 16 + ug * 2 ^ 8 + ub) / 2 ^ 8 % 2 ^ 8 = ug ∧
    (255 * 2 ^ 24 + ur * 2 ^ 16 + ug * 2 ^ 8 + ub) % 2 ^ 8 = ub := by
  omega

/-- **C7** (amended): for every accumulated colour and positive sample
count, `set_color` divides each channel by the sample count, takes its
square root, clamps it to the closed interval `[0, 0.999]` (the code's
`clamp(x, 0.0, 0.999)` attains `0.999`; the claim's half-open
`[0, 0.999)` fails, see the counterexample), scales by 256, truncates,
and packs the result with byte 3 = `0xFF`, byte 2 = red,
byte 1 = green, byte 0 = blue; zero accumulated radiance maps to opaque
black `0xFF000000`. -/
theorem c7_set_color_layout (color : Vec3) (n : ℤ) (hn : 0 < n) :
    (∀ c : ℝ, 0 ≤ gammaClamped c n ∧ gammaClamped c n ≤ 0.999) ∧
    set_color color n / 2 ^ 24 % 2 ^ 8 = 255 ∧
    set_color color n / 2 ^ 16 % 2 ^ 8 =
      Nat.floor (256 * gammaClamped color.x n) ∧
    set_color color n / 2 ^ 8 % 2 ^ 8 =
      Nat.floor (256 * gammaClamped color.y n) ∧
    set_color color n % 2 ^ 8 = Nat.floor (256 * gammaClamped color.z n) ∧
    set_color ⟨0, 0, 0⟩ n = 4278190080 := by
  have hx := gammaClamped_floor_le color.x n
  have hy := gammaClamped_floor_le color.y n
  have hz := gammaClamped_floor_le color.z n
  obtain ⟨p1, p2, p3, p4⟩ :=
    pack_bytes (Nat.floor (256 * gammaClamped color.x n))
      (Nat.floor (256 * gammaClamped color.y n))
      (Nat.floor (256 * gammaClamped color.z n)) hx hy hz
  refine ⟨fun c => gammaClamped_mem c n, p1, p2, p3, p4, ?_⟩
  show 255 * 2 ^ 24 + Nat.floor (256 * gammaClamped (0 : ℝ) n) * 2 ^ 16 +
      Nat.floor (256 * gammaClamped (0 : ℝ) n) * 2 ^ 8 +
      Nat.floor (256 * gammaClamped (0 : ℝ) n) = 4278190080
  rw [gammaClamped_zero]
  norm_num

/-- Witness for `c7_set_color_layout` at colour `(2,2,2)` over 2
samples. -/
theorem c7_witness :
    (0 : ℤ) < 2 ∧
    ((∀ c : ℝ, 0 ≤ gammaClamped c 2 ∧ gammaClamped c 2 ≤ 0.999) ∧
    set_color ⟨2, 2, 2⟩ 2 / 2 ^ 24 % 2 ^ 8 = 255 ∧
    set_color ⟨2, 2, 2⟩ 2 / 2 ^ 16 % 2 ^ 8 =
      Nat.floor (256 * gammaClamped (2 : ℝ) 2) ∧
    set_color ⟨2, 2, 2⟩ 2 / 2 ^ 8 % 2 ^ 8 =
      Nat.floor (256 * gammaClamped (2 : ℝ) 2) ∧
    set_color ⟨2, 2, 2⟩ 2 % 2 ^ 8 = Nat.floor (256 * gammaClamped (2 : ℝ) 2) ∧
    set_color ⟨0, 0, 0⟩ 2 = 4278190080) :=
  ⟨by norm_num, c7_set_color_layout ⟨2, 2, 2⟩ 2 (by norm_num)⟩

/-- **C7** counterexample to the claimed clamp range `[0, 0.999)`: for
accumulated radiance 2 over 2 samples the channel is
`clamp(sqrt(1), 0, 0.999) = 0.999`, which is not below `0.999` — the
code's clamp attains the upper endpoint. -/
theorem c7_counterexample :
    gammaClamped 2 2 = 0.999 ∧ ¬(gammaClamped 2 2 < 0.999) := by
  have h : gammaClamped 2 2 = 0.999 := by
    unfold gammaClamped clamp
    rw [show (2 : ℝ) * (1 / ((2 : ℤ) : ℝ)) = 1 by norm_num, Real.sqrt_one]
    norm_num
  exact ⟨h, by rw [h]; exact lt_irrefl _⟩

/-- **C8** counterexample: `Metal::new` only caps the fuzz argument
from above (`if f < 1.0 { f } else { 1.0 }`); a negative argument is
stored unchanged, so the stored fuzz of `Metal::new(albedo, -1)` is
`-1`, outside `[0, 1]`. -/
theorem c8_counterexample :
    (Metal.new ⟨1, 1, 1⟩ (-1)).fuzz = -1 ∧
    ¬(0 ≤ (Metal.new ⟨1, 1, 1⟩ (-1)).fuzz) := by
  have h : (Metal.new ⟨1, 1, 1⟩ (-1)).fuzz = -1 := by
    show (if (-1 : ℝ) < 1 then (-1 : ℝ) else 1) = -1
    rw [if_pos (by norm_num : (-1 : ℝ) < 1)]
  exact ⟨h, by rw [h]; norm_num⟩

/-- **C8** (amended): the fuzz `Metal::new` stores is always at most 1,
and lies in `[0, 1]` whenever the fuzz argument is nonnegative (the
constructor caps from above only, so a negative argument is stored
unchanged — see the counterexample). -/
theorem c8_metal_new_fuzz (albedo : Vec3) (f : ℝ) :
    (Metal.new albedo f).fuzz ≤ 1 ∧
    (0 ≤ f →
      0 ≤ (Metal.new albedo f).fuzz ∧ (Metal.new albedo f).fuzz ≤ 1) := by
  have hle : (Metal.new albedo f).fuzz ≤ 1 := by
    show (if f < 1 then f else 1) ≤ 1
    split_ifs with h
    · exact le_of_lt h
    · exact le_refl 1
  refine ⟨hle, fun hf => ⟨?_, hle⟩⟩
  show 0 ≤ (if f < 1 then f else 1)
  split_ifs with h
  · exact hf
  · norm_num

/-- Witness for `c8_metal_new_fuzz` at fuzz argument `0.5`. -/
theorem c8_witness :
    (0 : ℝ) ≤ 0.5 ∧ 0 ≤ (Metal.new ⟨1, 1, 1⟩ 0.5).fuzz ∧
    (Metal.new ⟨1, 1, 1⟩ 0.5).fuzz ≤ 1 :=
  ⟨by norm_num,
    ((c8_metal_new_fuzz ⟨1, 1, 1⟩ 0.5).2 (by norm_num)).1,
    (c8_metal_new_fuzz ⟨1, 1, 1⟩ 0.5).1⟩

/-- **C1** (code bug): during a render the thread writes the PPM header
(`main.rs` line 67) and then completes rows without ever writing them —
`write_color` is defined but never called — so the output file holds
the header only.  Evaluated at a 2-by-1 render with its one row
completed: the file is exactly the header line, and in particular not
the header followed by one `R G B` line per pixel (which would make
three lines). -/
theorem c1_file_is_header_only :
    render_file_lines 2 1 [[0, 0]] = [ppm_header 2 1] ∧
    (render_file_lines 2 1 [[0, 0]]).length = 1 ∧
    ppm_header 2 1 = "P3\n2 1\n255\n" :=
  ⟨rfl, rfl, rfl⟩

/-- **C10** (modelled from the spec: the `triple_buffer` crate is an
external dependency): publishing rows `R1, R2, R3` in sequence before
any consumer read leaves the reader, at its next `update`, observing
exactly `R3` — and hence never `R1` or `R2` when those differ from
`R3`.  Both operations are total one-step functions, so neither side
waits for the other. -/
theorem c10_triple_buffer_latest {α : Type} (b : TripleBuffer α)
    (r1 r2 r3 : α) :
    ((((b.publish r1).publish r2).publish r3).update.1.output_buffer = r3) ∧
    ((((b.publish r1).publish r2).publish r3).update.2 = true) ∧
    (r3 ≠ r1 →
      (((b.publish r1).publish r2).publish r3).update.1.output_buffer ≠ r1) ∧
    (r3 ≠ r2 →
      (((b.publish r1).publish r2).publish r3).update.1.output_buffer ≠ r2) :=
  ⟨rfl, rfl, fun h => h, fun h => h⟩

/-- Witness for `c10_triple_buffer_latest` on natural-number rows
`1, 2, 3` from an empty buffer. -/
theorem c10_witness :
    (3 : ℕ) ≠ 1 ∧ (3 : ℕ) ≠ 2 ∧
    ((((TripleBuffer.mk 0 0 false).publish 1).publish 2).publish
        3).update.1.output_buffer = 3 ∧
    ((((TripleBuffer.mk 0 0 false).publish 1).publish 2).publish
        3).update.1.output_buffer ≠ 1 ∧
    ((((TripleBuffer.mk 0 0 false).publish 1).publish 2).publish
        3).update.1.output_buffer ≠ 2 :=
  ⟨by decide, by decide,
    (c10_triple_buffer_latest (TripleBuffer.mk 0 0 false) 1 2 3).1,
    (c10_triple_buffer_latest (TripleBuffer.mk 0 0 false) 1 2 3).2.2.1
      (by decide),
    (c10_triple_buffer_latest (TripleBuffer.mk 0 0 false) 1 2 3).2.2.2
      (by decide)⟩
